import Mathlib

/-!
Shallow embedding of the data/policy core of `src/inventory_app.py`
(a Tkinter + sqlite3 inventory application) and proofs about the claims
of its specification.

Modelling conventions:
* a sqlite table is a `List` of records in rowid (insertion) order;
* `TEXT` is `String`, `INTEGER` is `Int` (ids are `Nat`), `REAL` is `Rat`
  (every binary floating-point value is a rational whose denominator is a
  power of two, hence has a finite decimal expansion);
* Python's `str.strip`, `int(str)`, `float(str)` and `str(...)` on numbers
  are modelled by `pyStrip`, `pythonInt`, `pythonFloat`, `renderInt`,
  `renderPrice` below, on the decimal forms the application emits and
  consumes (exponent notation, `inf`/`nan` and digit underscores are
  outside the model);
* the SHA-256 hex digest is kept as an explicit function parameter
  `hash : String → String`; the only properties the program relies on are
  that it is a function (deterministic) and that a 64-character hex digest
  is never the 5-character plaintext "admin", which appears as the
  hypothesis `∀ x, hash x ≠ "admin"` where needed;
* CSV streams are modelled structurally (`Csv`: a header row plus data
  rows), abstracting the quoting layer of Python's `csv` module, which is
  inverse to itself; `csv.DictReader`'s `row.get(col, default)` is
  modelled by header lookup (`getField`), for rows that carry one cell
  per header column.
-/

namespace InventoryApp

/-- Decimal digit characters, codepoints 48 to 57 (model of the digit
class accepted by Python's `int` and `float` parsers). -/
def isDigitC (c : Char) : Bool := decide (48 ≤ c.toNat ∧ c.toNat ≤ 57)

/-- Whitespace removed by Python's `str.strip` and ignored around numbers
by `int(str)` and `float(str)`: space, TAB, LF, VT, FF, CR. -/
def wsC (c : Char) : Bool :=
  decide (c.toNat = 32 ∨ c.toNat = 9 ∨ c.toNat = 10 ∨ c.toNat = 11 ∨
          c.toNat = 12 ∨ c.toNat = 13)

/-- Numeric value of a digit character. -/
def digitVal (c : Char) : Nat := c.toNat - 48

/-- Value of a digit list read left to right, starting from accumulator `a`. -/
def digitsValFrom (a : Nat) (l : List Char) : Nat :=
  l.foldl (fun x c => 10 * x + digitVal c) a

/-- Value of a decimal digit list. -/
def digitsVal (l : List Char) : Nat := digitsValFrom 0 l

/-- Value of a digit list, or `none` if it is empty or contains a
non-digit character. -/
def digitsValOpt (l : List Char) : Option Nat :=
  match l with
  | [] => none
  | _ :: _ => if l.all isDigitC then some (digitsVal l) else none

/-- Model of Python's `str.strip()`: remove whitespace from both ends. -/
def pyStripL (l : List Char) : List Char :=
  ((l.dropWhile wsC).reverse.dropWhile wsC).reverse

/-- String-level wrapper for `pyStripL`. -/
def pyStripS (s : String) : String := String.mk (pyStripL s.data)

/-- Consume an optional leading sign; returns (isNegative, rest). -/
def stripSign (l : List Char) : Bool × List Char :=
  match l with
  | [] => (false, [])
  | c :: t => if c = '-' then (true, t) else if c = '+' then (false, t) else (false, c :: t)

/-- Model of Python's `int(str)`: strip whitespace, optional sign,
then a non-empty run of decimal digits. -/
def pythonIntL (l : List Char) : Option Int :=
  let sr := stripSign (pyStripL l)
  match digitsValOpt sr.2 with
  | some n => some (if sr.1 then -(n : Int) else (n : Int))
  | none => none

/-- String-level wrapper for `pythonIntL`. -/
def pythonIntS (s : String) : Option Int := pythonIntL s.data

/-- Digit part of the Python `float(str)` grammar, after sign removal:
integer digits, then optionally a dot and fractional digits; at least one
digit overall.  `neg` records a consumed leading minus sign. -/
def pythonFloatCore (neg : Bool) (t : List Char) : Option Rat :=
  let ip := t.takeWhile isDigitC
  match t.dropWhile isDigitC with
  | [] =>
      if ip.isEmpty then none
      else some (if neg then -(digitsVal ip : Rat) else (digitsVal ip : Rat))
  | '.' :: fp =>
      if fp.all isDigitC && !(ip.isEmpty && fp.isEmpty) then
        let v : Rat := (digitsVal ip : Rat) + (digitsVal fp : Rat) / (10 : Rat) ^ fp.length
        some (if neg then -v else v)
      else none
  | _ => none

/-- Model of Python's `float(str)` on plain decimal notation (the only
form the exporter emits): strip whitespace, optional sign, then digits as
in `pythonFloatCore`. -/
def pythonFloatL (l : List Char) : Option Rat :=
  pythonFloatCore (stripSign (pyStripL l)).1 (stripSign (pyStripL l)).2

/-- String-level wrapper for `pythonFloatL`. -/
def pythonFloatS (s : String) : Option Rat := pythonFloatL s.data

/-- Fuel-indexed decimal rendering of a natural number (most significant
digit first); `fuel > n` suffices for a complete rendering. -/
def renderNatAux : Nat → Nat → List Char
  | 0, _ => []
  | fuel + 1, n =>
      if n < 10 then [Nat.digitChar n]
      else renderNatAux fuel (n / 10) ++ [Nat.digitChar (n % 10)]

/-- Decimal digit list of a natural number (model of Python's `str` on a
nonnegative integer). -/
def renderNat (n : Nat) : List Char := renderNatAux (n + 1) n

/-- Model of Python's `str(int)`. -/
def renderIntL (n : Int) : List Char :=
  if n < 0 then '-' :: renderNat n.natAbs else renderNat n.toNat

/-- String-level wrapper for `renderIntL`. -/
def renderIntS (n : Int) : String := String.mk (renderIntL n)

/-- Least exponent `k ≤ d` with `d` dividing `10 ^ k` (`0` if none):
used to pick the decimal precision that represents a denominator-`d`
rational exactly. -/
def pow10Exp (d : Nat) : Nat :=
  ((List.range (d + 1)).find? (fun k => decide ((10 : Nat) ^ k % d = 0))).getD 0

/-- Model of Python's `str(float)`: every float is a rational with a
finite decimal expansion, and `str` prints a decimal string that `float`
parses back to the identical value.  This renderer prints the exact
finite decimal with at least one fractional digit (as Python does). -/
def renderPriceL (q : Rat) : List Char :=
  let K := max (pow10Exp q.den) 1
  let c : Nat := 10 ^ K / q.den
  let m : Int := q.num * (c : Int)
  let ip := m.natAbs / 10 ^ K
  let fp := m.natAbs % 10 ^ K
  let fpd := renderNat fp
  (if q.num < 0 then ['-'] else []) ++
    renderNat ip ++ '.' :: (List.replicate (K - fpd.length) '0' ++ fpd)

/-- String-level wrapper for `renderPriceL`. -/
def renderPriceS (q : Rat) : String := String.mk (renderPriceL q)

theorem digitChar_toNat (d : Nat) (h : d < 10) : (Nat.digitChar d).toNat = 48 + d := by
  interval_cases d <;> decide

theorem digitChar_isDigitC (d : Nat) (h : d < 10) : isDigitC (Nat.digitChar d) = true := by
  interval_cases d <;> decide

theorem isDigitC_not_ws (c : Char) (h : isDigitC c = true) : wsC c = false := by
  simp only [isDigitC, decide_eq_true_eq] at h
  simp only [wsC, decide_eq_false_iff_not]
  omega

theorem digitsValFrom_append (a : Nat) (l₁ l₂ : List Char) :
    digitsValFrom a (l₁ ++ l₂) = digitsValFrom (digitsValFrom a l₁) l₂ := by
  simp [digitsValFrom, List.foldl_append]

theorem digitsVal_cons (c : Char) (t : List Char) :
    digitsVal (c :: t) = digitsValFrom (digitVal c) t := by
  simp [digitsVal, digitsValFrom]

theorem digitsValFrom_eq (l : List Char) : ∀ a : Nat,
    digitsValFrom a l = a * 10 ^ l.length + digitsVal l := by
  induction l with
  | nil => intro a; simp [digitsValFrom, digitsVal]
  | cons c t ih =>
      intro a
      have h1 : digitsValFrom a (c :: t) = digitsValFrom (10 * a + digitVal c) t := rfl
      rw [h1, ih, digitsVal_cons, ih (digitVal c)]
      simp [List.length_cons, pow_succ]
      ring

theorem digitsVal_append (l₁ l₂ : List Char) :
    digitsVal (l₁ ++ l₂) = digitsVal l₁ * 10 ^ l₂.length + digitsVal l₂ := by
  rw [digitsVal, digitsValFrom_append, digitsValFrom_eq]
  rfl

theorem digitsVal_replicate_zero (z : Nat) :
    digitsVal (List.replicate z '0') = 0 := by
  induction z with
  | zero => rfl
  | succ n ih =>
      rw [List.replicate_succ, digitsVal_cons]
      have hz : digitVal '0' = 0 := by decide
      rw [hz]
      exact ih

theorem renderNatAux_spec : ∀ fuel n, n < fuel →
    digitsVal (renderNatAux fuel n) = n ∧
    (∀ c ∈ renderNatAux fuel n, isDigitC c = true) ∧
    renderNatAux fuel n ≠ [] := by
  intro fuel
  induction fuel with
  | zero => intro n h; omega
  | succ f ih =>
      intro n h
      by_cases h10 : n < 10
      · refine ⟨?_, ?_, ?_⟩
        · rw [renderNatAux, if_pos h10, digitsVal_cons]
          simp [digitsValFrom, digitVal, digitChar_toNat n h10]
        · intro c hc
          rw [renderNatAux, if_pos h10] at hc
          simp only [List.mem_singleton] at hc
          exact hc ▸ digitChar_isDigitC n h10
        · rw [renderNatAux, if_pos h10]; simp
      · have hpos : 0 < n := by omega
        have hdivlt : n / 10 < n := Nat.div_lt_self hpos (by omega)
        have hdivf : n / 10 < f := by omega
        obtain ⟨hv, hd, hne⟩ := ih (n / 10) hdivf
        refine ⟨?_, ?_, ?_⟩
        · rw [renderNatAux, if_neg h10, digitsVal_append, hv]
          have hm : digitsVal [Nat.digitChar (n % 10)] = n % 10 := by
            rw [digitsVal_cons]
            simp [digitsValFrom, digitVal, digitChar_toNat (n % 10) (Nat.mod_lt n (by omega))]
          rw [hm]
          simp only [List.length_singleton, pow_one]
          omega
        · intro c hc
          rw [renderNatAux, if_neg h10] at hc
          rcases List.mem_append.mp hc with h1 | h1
          · exact hd c h1
          · simp only [List.mem_singleton] at h1
            exact h1 ▸ digitChar_isDigitC (n % 10) (Nat.mod_lt n (by omega))
        · rw [renderNatAux, if_neg h10]
          simp

theorem renderNat_val (n : Nat) : digitsVal (renderNat n) = n :=
  (renderNatAux_spec (n + 1) n (Nat.lt_succ_self n)).1

theorem renderNat_digits (n : Nat) : ∀ c ∈ renderNat n, isDigitC c = true :=
  (renderNatAux_spec (n + 1) n (Nat.lt_succ_self n)).2.1

theorem renderNat_ne_nil (n : Nat) : renderNat n ≠ [] :=
  (renderNatAux_spec (n + 1) n (Nat.lt_succ_self n)).2.2

theorem renderNatAux_length : ∀ fuel n k, n < fuel → n < 10 ^ k → 1 ≤ k →
    (renderNatAux fuel n).length ≤ k := by
  intro fuel
  induction fuel with
  | zero => intro n k h; omega
  | succ f ih =>
      intro n k hf hk h1
      by_cases h10 : n < 10
      · rw [renderNatAux, if_pos h10]
        simpa using h1
      · have hk2 : 2 ≤ k := by
          rcases Nat.lt_or_ge k 2 with hlt | hge
          · interval_cases k
            · simp only [pow_one] at hk; omega
          · exact hge
        have hpow : 10 ^ (k - 1) * 10 = 10 ^ k := by
          rw [← pow_succ]
          congr 1
          omega
        have hdiv : n / 10 < 10 ^ (k - 1) := by
          rw [Nat.div_lt_iff_lt_mul (by omega)]
          omega
        have hlt : n / 10 < f := by
          have := Nat.div_lt_self (show 0 < n by omega) (show 1 < 10 by omega)
          omega
        have hih := ih (n / 10) (k - 1) hlt hdiv (by omega)
        rw [renderNatAux, if_neg h10]
        rw [List.length_append, List.length_singleton]
        omega

theorem renderNat_length (n k : Nat) (hk : n < 10 ^ k) (h1 : 1 ≤ k) :
    (renderNat n).length ≤ k :=
  renderNatAux_length (n + 1) n k (Nat.lt_succ_self n) hk h1

theorem takeWhile_digits_dot (rest : List Char) : ∀ ip : List Char,
    (∀ c ∈ ip, isDigitC c = true) →
    (ip ++ '.' :: rest).takeWhile isDigitC = ip ∧
    (ip ++ '.' :: rest).dropWhile isDigitC = '.' :: rest := by
  intro ip
  induction ip with
  | nil =>
      intro _
      constructor
      · rw [List.nil_append, List.takeWhile_cons]
        simp [show isDigitC '.' = false from by decide]
      · rw [List.nil_append, List.dropWhile_cons]
        simp [show isDigitC '.' = false from by decide]
  | cons c t ih =>
      intro h
      have hc : isDigitC c = true := h c (by simp)
      have ht := ih (fun x hx => h x (by simp [hx]))
      constructor
      · rw [List.cons_append, List.takeWhile_cons, if_pos hc, ht.1]
      · rw [List.cons_append, List.dropWhile_cons, if_pos hc, ht.2]

theorem dropWhile_ws_eq_self (l : List Char) (h : ∀ c ∈ l, wsC c = false) :
    l.dropWhile wsC = l := by
  cases l with
  | nil => rfl
  | cons c t =>
      rw [List.dropWhile_cons]
      simp [h c (by simp)]

theorem pyStripL_eq_self (l : List Char) (h : ∀ c ∈ l, wsC c = false) :
    pyStripL l = l := by
  unfold pyStripL
  rw [dropWhile_ws_eq_self l h]
  rw [dropWhile_ws_eq_self l.reverse (fun c hc => h c (List.mem_reverse.mp hc))]
  exact List.reverse_reverse l

theorem stripSign_digit (c : Char) (t : List Char) (h : isDigitC c = true) :
    stripSign (c :: t) = (false, c :: t) := by
  have h1 : ¬ c = '-' := fun e => absurd (e ▸ h) (by decide)
  have h2 : ¬ c = '+' := fun e => absurd (e ▸ h) (by decide)
  simp [stripSign, h1, h2]

theorem digitsValOpt_digits (l : List Char) (hne : l ≠ [])
    (hd : ∀ c ∈ l, isDigitC c = true) : digitsValOpt l = some (digitsVal l) := by
  cases l with
  | nil => exact absurd rfl hne
  | cons c t =>
      rw [digitsValOpt]
      rw [if_pos (List.all_eq_true.mpr hd)]

theorem pythonInt_renderInt (n : Int) : pythonIntS (renderIntS n) = some n := by
  have hstrip : ∀ m : Nat, pyStripL (renderNat m) = renderNat m := fun m =>
    pyStripL_eq_self _ (fun c hc => isDigitC_not_ws c (renderNat_digits m c hc))
  rw [pythonIntS, renderIntS]
  show pythonIntL (renderIntL n) = some n
  by_cases hn : n < 0
  · rw [renderIntL, if_pos hn, pythonIntL]
    have hstrip2 : pyStripL ('-' :: renderNat n.natAbs) = '-' :: renderNat n.natAbs := by
      refine pyStripL_eq_self _ ?_
      intro c hc
      rcases List.mem_cons.mp hc with h1 | h1
      · subst h1; decide
      · exact isDigitC_not_ws c (renderNat_digits _ c h1)
    rw [hstrip2]
    have hsgn : stripSign ('-' :: renderNat n.natAbs) = (true, renderNat n.natAbs) := by
      simp [stripSign]
    rw [hsgn]
    rw [digitsValOpt_digits _ (renderNat_ne_nil _) (renderNat_digits _), renderNat_val]
    show some (-(n.natAbs : Int)) = some n
    congr 1
    omega
  · rw [renderIntL, if_neg hn, pythonIntL]
    rw [hstrip n.toNat]
    obtain ⟨c, t, hct⟩ := List.exists_cons_of_ne_nil (renderNat_ne_nil n.toNat)
    have hsgn : stripSign (renderNat n.toNat) = (false, renderNat n.toNat) := by
      rw [hct]
      exact stripSign_digit c t (renderNat_digits n.toNat c (by rw [hct]; simp))
    rw [hsgn]
    rw [digitsValOpt_digits _ (renderNat_ne_nil _) (renderNat_digits _), renderNat_val]
    show some ((n.toNat : Int)) = some n
    congr 1
    omega

theorem pow10Exp_dvd (d : Nat) (hd : d ∣ 10 ^ d) : d ∣ 10 ^ pow10Exp d := by
  have hpred : (fun k => decide ((10 : Nat) ^ k % d = 0)) d = true := by
    simp only [decide_eq_true_eq]
    exact Nat.dvd_iff_mod_eq_zero.mp hd
  have hsome : ((List.range (d + 1)).find?
      (fun k => decide ((10 : Nat) ^ k % d = 0))).isSome = true :=
    List.find?_isSome.mpr ⟨d, by simp, hpred⟩
  obtain ⟨k, hk⟩ := Option.isSome_iff_exists.mp hsome
  have hkp := List.find?_some hk
  simp only [decide_eq_true_eq] at hkp
  rw [pow10Exp, hk, Option.getD_some]
  exact Nat.dvd_iff_mod_eq_zero.mpr hkp

theorem pythonFloatCore_form (neg : Bool) (ipd fpd : List Char)
    (hip : ∀ c ∈ ipd, isDigitC c = true) (hfp : ∀ c ∈ fpd, isDigitC c = true)
    (hipne : ipd ≠ []) :
    pythonFloatCore neg (ipd ++ '.' :: fpd)
      = some (if neg
              then -((digitsVal ipd : Rat) + (digitsVal fpd : Rat) / (10 : Rat) ^ fpd.length)
              else (digitsVal ipd : Rat) + (digitsVal fpd : Rat) / (10 : Rat) ^ fpd.length) := by
  obtain ⟨htw, hdw⟩ := takeWhile_digits_dot fpd ipd hip
  have hipe : ipd.isEmpty = false := by
    cases ipd with
    | nil => exact absurd rfl hipne
    | cons c t => rfl
  simp only [pythonFloatCore, htw, hdw]
  rw [if_pos]
  rw [List.all_eq_true.mpr hfp, hipe]
  simp

theorem pythonFloatL_form (neg : Bool) (ipd fpd : List Char)
    (hip : ∀ c ∈ ipd, isDigitC c = true) (hfp : ∀ c ∈ fpd, isDigitC c = true)
    (hipne : ipd ≠ []) :
    pythonFloatL ((if neg then ['-'] else []) ++ ipd ++ '.' :: fpd)
      = some (if neg
              then -((digitsVal ipd : Rat) + (digitsVal fpd : Rat) / (10 : Rat) ^ fpd.length)
              else (digitsVal ipd : Rat) + (digitsVal fpd : Rat) / (10 : Rat) ^ fpd.length) := by
  have hnows : ∀ c ∈ (if neg then ['-'] else []) ++ ipd ++ '.' :: fpd, wsC c = false := by
    intro c hc
    rcases List.mem_append.mp hc with h1 | h1
    · rcases List.mem_append.mp h1 with h2 | h2
      · cases neg with
        | true =>
            simp only [if_true, List.mem_singleton] at h2
            subst h2; decide
        | false => simp at h2
      · exact isDigitC_not_ws c (hip c h2)
    · rcases List.mem_cons.mp h1 with h3 | h3
      · subst h3; decide
      · exact isDigitC_not_ws c (hfp c h3)
  rw [pythonFloatL, pyStripL_eq_self _ hnows]
  cases neg with
  | true =>
      have hl : (if true then ['-'] else []) ++ ipd ++ '.' :: fpd
          = '-' :: (ipd ++ '.' :: fpd) := rfl
      rw [hl]
      have hsgn : stripSign ('-' :: (ipd ++ '.' :: fpd)) = (true, ipd ++ '.' :: fpd) := by
        simp [stripSign]
      rw [hsgn]
      exact pythonFloatCore_form true ipd fpd hip hfp hipne
  | false =>
      have hl : (if false then ['-'] else []) ++ ipd ++ '.' :: fpd
          = ipd ++ '.' :: fpd := by simp
      rw [hl]
      obtain ⟨c, t, hct⟩ := List.exists_cons_of_ne_nil hipne
      have hsgn : stripSign (ipd ++ '.' :: fpd) = (false, ipd ++ '.' :: fpd) := by
        rw [hct, List.cons_append]
        exact stripSign_digit c _ (hip c (by rw [hct]; simp))
      rw [hsgn]
      exact pythonFloatCore_form false ipd fpd hip hfp hipne

theorem pythonFloatL_form_neg (ipd fpd : List Char)
    (hip : ∀ c ∈ ipd, isDigitC c = true) (hfp : ∀ c ∈ fpd, isDigitC c = true)
    (hipne : ipd ≠ []) :
    pythonFloatL ('-' :: (ipd ++ '.' :: fpd))
      = some (-((digitsVal ipd : Rat) + (digitsVal fpd : Rat) / (10 : Rat) ^ fpd.length)) := by
  have h := pythonFloatL_form true ipd fpd hip hfp hipne
  simpa using h

theorem pythonFloatL_form_pos (ipd fpd : List Char)
    (hip : ∀ c ∈ ipd, isDigitC c = true) (hfp : ∀ c ∈ fpd, isDigitC c = true)
    (hipne : ipd ≠ []) :
    pythonFloatL (ipd ++ '.' :: fpd)
      = some ((digitsVal ipd : Rat) + (digitsVal fpd : Rat) / (10 : Rat) ^ fpd.length) := by
  have h := pythonFloatL_form false ipd fpd hip hfp hipne
  simpa using h

theorem pythonFloat_renderPrice (q : Rat) (h : q.den ∣ 10 ^ q.den) :
    pythonFloatS (renderPriceS q) = some q := by
  rw [pythonFloatS, renderPriceS]
  show pythonFloatL (renderPriceL q) = some q
  simp only [renderPriceL]
  set K := max (pow10Exp q.den) 1 with hKdef
  set c : Nat := 10 ^ K / q.den with hcdef
  set m : Int := q.num * (c : Int) with hmdef
  set A : Nat := m.natAbs with hAdef
  set ip : Nat := A / 10 ^ K with hipdef
  set fp : Nat := A % 10 ^ K with hfpdef
  have hK1 : 1 ≤ K := le_max_right _ _
  have hdvd : q.den ∣ 10 ^ K :=
    dvd_trans (pow10Exp_dvd q.den h) (pow_dvd_pow 10 (le_max_left _ _))
  have hc : q.den * c = 10 ^ K := Nat.mul_div_cancel' hdvd
  have hPK : (0 : Nat) < 10 ^ K := pow_pos (by omega) K
  have hcpos : 0 < c := by
    rcases Nat.eq_zero_or_pos c with h0 | h0
    · rw [h0, Nat.mul_zero] at hc; omega
    · exact h0
  have hfplt : fp < 10 ^ K := Nat.mod_lt _ hPK
  have hflen : (renderNat fp).length ≤ K := renderNat_length fp K hfplt hK1
  have hpadd : ∀ x ∈ List.replicate (K - (renderNat fp).length) '0' ++ renderNat fp,
      isDigitC x = true := by
    intro x hx
    rcases List.mem_append.mp hx with h1 | h1
    · rw [(List.mem_replicate.mp h1).2]; decide
    · exact renderNat_digits fp x h1
  have hda : ip * 10 ^ K + fp = A := by
    rw [hipdef, hfpdef]
    conv_lhs => rw [Nat.mul_comm]
    exact Nat.div_add_mod A (10 ^ K)
  have hdfp : digitsVal (List.replicate (K - (renderNat fp).length) '0' ++ renderNat fp)
      = fp := by
    rw [digitsVal_append, digitsVal_replicate_zero, renderNat_val]
    simp
  have hlen : (List.replicate (K - (renderNat fp).length) '0' ++ renderNat fp).length
      = K := by
    rw [List.length_append, List.length_replicate]
    omega
  have hden0 : ((q.den : Rat)) ≠ 0 := Nat.cast_ne_zero.mpr q.den_nz
  have h10K : ((10 : Rat) ^ K) ≠ 0 := by positivity
  have hnum : q * (q.den : Rat) = (q.num : Rat) := by
    have h1 := Rat.num_div_den q
    calc q * (q.den : Rat) = (q.num : Rat) / (q.den : Rat) * (q.den : Rat) := by rw [h1]
      _ = (q.num : Rat) := div_mul_cancel₀ _ hden0
  have hmq : (m : Rat) = q * (10 : Rat) ^ K := by
    calc (m : Rat) = (q.num : Rat) * (c : Rat) := by rw [hmdef]; push_cast; ring
      _ = q * (q.den : Rat) * (c : Rat) := by rw [hnum]
      _ = q * ((q.den * c : Nat) : Rat) := by push_cast; ring
      _ = q * ((10 ^ K : Nat) : Rat) := by rw [hc]
      _ = q * (10 : Rat) ^ K := by push_cast; ring
  have hsum : (ip : Rat) + (fp : Rat) / (10 : Rat) ^ K = (A : Rat) / (10 : Rat) ^ K := by
    have hAr : (A : Rat) = (ip : Rat) * (10 : Rat) ^ K + (fp : Rat) := by
      rw [← hda]; push_cast; ring
    rw [hAr]
    field_simp
  by_cases hqn : q.num < 0
  · rw [if_pos hqn]
    show pythonFloatL ('-' :: (renderNat ip ++ '.' ::
        (List.replicate (K - (renderNat fp).length) '0' ++ renderNat fp))) = some q
    rw [pythonFloatL_form_neg (renderNat ip) _ (renderNat_digits ip) hpadd
        (renderNat_ne_nil ip)]
    congr 1
    rw [renderNat_val, hdfp, hlen, hsum]
    have hmneg : m < 0 := by
      rw [hmdef]
      exact mul_neg_of_neg_of_pos hqn (by exact_mod_cast hcpos)
    have hAm : (A : Int) = -m := by rw [hAdef]; omega
    have hAr : (A : Rat) = -(m : Rat) := by exact_mod_cast hAm
    rw [hAr, hmq]
    field_simp
  · rw [if_neg hqn]
    show pythonFloatL (renderNat ip ++ '.' ::
        (List.replicate (K - (renderNat fp).length) '0' ++ renderNat fp)) = some q
    rw [pythonFloatL_form_pos (renderNat ip) _ (renderNat_digits ip) hpadd
        (renderNat_ne_nil ip)]
    congr 1
    rw [renderNat_val, hdfp, hlen, hsum]
    have hmpos : 0 ≤ m := by
      rw [hmdef]
      exact mul_nonneg (by omega) (by exact_mod_cast Nat.zero_le c)
    have hAm : (A : Int) = m := by rw [hAdef]; omega
    have hAr : (A : Rat) = (m : Rat) := by exact_mod_cast hAm
    rw [hAr, hmq]
    field_simp

/-- Row of the `inventory` table:
`inventory(id, item_name, quantity, price, deleted, deleted_at)`. -/
structure Item where
  id : Nat
  name : String
  quantity : Int
  price : Rat
  deleted : Bool
  deleted_at : Option String
deriving DecidableEq

/-- The `inventory` table, in rowid (insertion) order. -/
abbrev Store := List Item

/-- Row of the `invoices` table:
`invoices(id, supplier_name, invoice_number, date, deleted, deleted_at)`. -/
structure Invoice where
  id : Nat
  supplier_name : String
  invoice_number : String
  date : String
  deleted : Bool
  deleted_at : Option String
deriving DecidableEq

/-- Row of the `users` table (the surrogate `id` column is never read by
the application and is omitted). -/
structure User where
  username : String
  password : String
  role : String
deriving DecidableEq

/-- Row of the `logs` table; the timestamp column is not consulted by any
claim and is omitted from the model. -/
structure LogEntry where
  username : String
  action : String
deriving DecidableEq

/-- The authenticated `(username, role)` pair carried by `InventoryApp`. -/
structure Session where
  username : String
  role : String

/-- Errors surfaced by the application as warning/error message boxes and
database integrity failures. -/
inductive AppError where
  | validation
  | integrity
  | protectedEntity
deriving DecidableEq

/-- Rows of `SELECT ... FROM inventory WHERE deleted = 0` (insertion
order: sqlite rowid order with no ORDER BY). -/
def listActive (s : Store) : Store := s.filter (fun i => !i.deleted)

/-- Rows of `SELECT ... FROM inventory WHERE deleted = 1` (the recycle
bin, `load_recycle_bin`). -/
def listDeleted (s : Store) : Store := s.filter (fun i => i.deleted)

/-- The next AUTOINCREMENT id for the inventory table. -/
def nextId (s : Store) : Nat := (s.map Item.id).foldl Nat.max 0 + 1

/-- Effect of `INSERT INTO inventory (item_name, quantity, price)
VALUES (?, ?, ?)`: a fresh active row (the `deleted` column defaults to 0
and `deleted_at` to NULL). -/
def insertItem (s : Store) (name : String) (q : Int) (p : Rat) : Store :=
  s ++ [⟨nextId s, name, q, p, false, none⟩]

/-- Embedding of `InventoryApp.update_item`'s database effect:
`UPDATE inventory SET quantity = ?, price = ? WHERE item_name = ?`.
The WHERE clause matches on the name only: every row whose `item_name`
equals `matchName` is updated, deleted rows included, and a missing match
updates nothing and raises no error. -/
def update_item (matchName : String) (q : Int) (p : Rat) (s : Store) : Store :=
  s.map (fun i => if i.name = matchName then { i with quantity := q, price := p } else i)

/-- Embedding of `InventoryApp.delete_item`'s database effect (soft
delete): `UPDATE inventory SET deleted = 1, deleted_at = ? WHERE
item_name = ?` with `ts` the current-time string. -/
def delete_item (matchName ts : String) (s : Store) : Store :=
  s.map (fun i => if i.name = matchName
                  then { i with deleted := true, deleted_at := some ts } else i)

/-- Embedding of `InventoryApp.restore_deleted_item`'s database effect:
`UPDATE inventory SET deleted = 0, deleted_at = NULL WHERE item_name = ?`. -/
def restore_deleted_item (matchName : String) (s : Store) : Store :=
  s.map (fun i => if i.name = matchName
                  then { i with deleted := false, deleted_at := none } else i)

/-- Embedding of `InventoryApp.permanently_delete_item`'s database effect
(after the confirmation dialog): `DELETE FROM inventory WHERE item_name = ?`.
Every row with that name is removed, active rows included; a missing match
removes nothing and raises no error. -/
def permanently_delete_item (matchName : String) (s : Store) : Store :=
  s.filter (fun i => decide (i.name ≠ matchName))

/-- Embedding of the summary accumulation loop of
`InventoryApp.load_inventory`: over the rows of
`SELECT item_name, quantity, price FROM inventory WHERE deleted = 0`,
accumulate `item_count`, `total_quantity` and `total_value`
(`total_value += quantity * price`). -/
def load_inventory_summary (s : Store) : Nat × Int × Rat :=
  (listActive s).foldl
    (fun acc i => (acc.1 + 1, acc.2.1 + i.quantity, acc.2.2 + (i.quantity : Rat) * i.price))
    (0, 0, 0)

/-- The observable content of an inventory row, ignoring the surrogate id
and the soft-delete bookkeeping. -/
def rowView (i : Item) : String × Int × Rat := (i.name, i.quantity, i.price)

/-- Structural model of a CSV stream: a header row of column names
followed by data rows (the quoting layer of Python's `csv` module is its
own inverse and is abstracted away). -/
structure Csv where
  header : List String
  rows : List (List String)
deriving DecidableEq

/-- Index of a column name in the header. -/
def colIndex (header : List String) (col : String) : Option Nat :=
  match header with
  | [] => none
  | h :: t => if h = col then some 0 else (colIndex t col).map (· + 1)

/-- Model of `csv.DictReader` row access `row[col]` for rows carrying one
cell per header column: `none` when the column is absent from the header,
in which case the caller's `row.get(col, default)` falls back to its
default value. -/
def getField (header row : List String) (col : String) : Option String :=
  (colIndex header col).bind (fun i => row.get? i)

/-- Name field of an imported inventory row:
`row.get("Item Name", "").strip()`. -/
def importRowName (header row : List String) : String :=
  pyStripS ((getField header row "Item Name").getD "")

/-- Quantity field of an imported inventory row:
`int(row.get("Quantity", 0))` — when the column is missing the default
is already the integer `0`, so the conversion trivially succeeds. -/
def importRowQty (header row : List String) : Option Int :=
  match getField header row "Quantity" with
  | none => some 0
  | some s => pythonIntS s

/-- Price field of an imported inventory row:
`float(row.get("Price", 0.0))` — when the column is missing the default
is already the float `0.0`, so the conversion trivially succeeds. -/
def importRowPrice (header row : List String) : Option Rat :=
  match getField header row "Price" with
  | none => some 0
  | some s => pythonFloatS s

/-- The row-acceptance predicate of `import_inventory_csv`: both numeric
fields convert (a missing column converting its default `0`), and the
stripped name is non-empty. -/
def importRowOk (header row : List String) : Bool :=
  (importRowQty header row).isSome && (importRowPrice header row).isSome &&
    decide (importRowName header row ≠ "")

/-- The observable content inserted for an accepted row. -/
def importRowView (header row : List String) : String × Int × Rat :=
  (importRowName header row, (importRowQty header row).getD 0,
   (importRowPrice header row).getD 0)

/-- One iteration of the `for row in reader` loop of
`InventoryApp.import_inventory_csv`: convert the numeric fields (skipping
the row on a conversion error), then insert and count the row if the
stripped name is non-empty. -/
def import_row_step (header : List String) (acc : Nat × Store) (row : List String) :
    Nat × Store :=
  match importRowQty header row, importRowPrice header row with
  | some q, some p =>
      if importRowName header row ≠ ""
      then (acc.1 + 1, insertItem acc.2 (importRowName header row) q p)
      else acc
  | _, _ => acc

/-- Embedding of `InventoryApp.import_inventory_csv` (its database
effect): fold the per-row step over the stream, returning
`imported_count` and the updated store. -/
def import_inventory_csv (c : Csv) (s : Store) : Nat × Store :=
  c.rows.foldl (import_row_step c.header) (0, s)

/-- Embedding of `InventoryApp.export_inventory_csv`: a header row
`Item Name, Quantity, Price` followed by one row per record of
`SELECT item_name, quantity, price FROM inventory WHERE deleted = 0`,
each value written by Python's `str`. -/
def export_inventory_csv (s : Store) : Csv :=
  ⟨["Item Name", "Quantity", "Price"],
   (listActive s).map (fun i => [i.name, renderIntS i.quantity, renderPriceS i.price])⟩

theorem import_row_step_ok (header row : List String) (acc : Nat × Store)
    (h : importRowOk header row = true) :
    import_row_step header acc row
      = (acc.1 + 1, insertItem acc.2 (importRowName header row)
          ((importRowQty header row).getD 0) ((importRowPrice header row).getD 0)) := by
  rcases hq : importRowQty header row with _ | q
  · rw [importRowOk, hq] at h; simp at h
  rcases hp : importRowPrice header row with _ | p
  · rw [importRowOk, hq, hp] at h; simp at h
  have hn : importRowName header row ≠ "" := by
    rw [importRowOk, hq, hp] at h
    simpa using h
  rw [import_row_step, hq, hp]
  simp [hn]

theorem import_row_step_skip (header row : List String) (acc : Nat × Store)
    (h : importRowOk header row = false) :
    import_row_step header acc row = acc := by
  rcases hq : importRowQty header row with _ | q
  · rw [import_row_step, hq]
  rcases hp : importRowPrice header row with _ | p
  · rw [import_row_step, hq, hp]
  have hn : ¬ importRowName header row ≠ "" := by
    rw [importRowOk, hq, hp] at h
    simpa using h
  rw [import_row_step, hq, hp]
  simp at hn
  simp [hn]

theorem import_rows_spec (header : List String) (rows : List (List String)) :
    ∀ (cnt : Nat) (s : Store),
    (rows.foldl (import_row_step header) (cnt, s)).1
        = cnt + (rows.filter (importRowOk header)).length
    ∧ ∃ new : Store,
        (rows.foldl (import_row_step header) (cnt, s)).2 = s ++ new
        ∧ (∀ i ∈ new, i.deleted = false ∧ i.deleted_at = none)
        ∧ new.map rowView = (rows.filter (importRowOk header)).map (importRowView header) := by
  induction rows with
  | nil =>
      intro cnt s
      exact ⟨by simp, [], by simp, by simp, by simp⟩
  | cons r rs ih =>
      intro cnt s
      by_cases hok : importRowOk header r = true
      · have hstep := import_row_step_ok header r (cnt, s) hok
        have hfold : (r :: rs).foldl (import_row_step header) (cnt, s)
            = rs.foldl (import_row_step header) (import_row_step header (cnt, s) r) := by
          simp [List.foldl_cons]
        obtain ⟨hcnt, new', hnew', hact', hview'⟩ :=
          ih (cnt + 1) (insertItem s (importRowName header r)
            ((importRowQty header r).getD 0) ((importRowPrice header r).getD 0))
        constructor
        · rw [hfold, hstep, hcnt, List.filter_cons_of_pos hok]
          simp only [List.length_cons]
          omega
        · refine ⟨⟨nextId s, importRowName header r, (importRowQty header r).getD 0,
              (importRowPrice header r).getD 0, false, none⟩ :: new', ?_, ?_, ?_⟩
          · rw [hfold, hstep, hnew', insertItem]
            simp
          · intro i hi
            rcases List.mem_cons.mp hi with h1 | h1
            · subst h1; exact ⟨rfl, rfl⟩
            · exact hact' i h1
          · rw [List.filter_cons_of_pos hok, List.map_cons, List.map_cons, hview']
            rfl
      · have hok' : importRowOk header r = false := by
          cases h : importRowOk header r
          · rfl
          · exact absurd h hok
        have hstep := import_row_step_skip header r (cnt, s) hok'
        have hfold : (r :: rs).foldl (import_row_step header) (cnt, s)
            = rs.foldl (import_row_step header) (cnt, s) := by
          simp [List.foldl_cons, hstep]
        obtain ⟨hcnt, new', hnew', hact', hview'⟩ := ih cnt s
        refine ⟨?_, new', ?_, hact', ?_⟩
        · rw [hfold, hcnt, List.filter_cons_of_neg (by simp [hok'])]
        · rw [hfold]; exact hnew'
        · rw [List.filter_cons_of_neg (by simp [hok'])]; exact hview'

/-- The next AUTOINCREMENT id for the invoices table. -/
def nextInvoiceId (l : List Invoice) : Nat := (l.map Invoice.id).foldl Nat.max 0 + 1

/-- Embedding of `InventoryApp.add_invoice`: strip the three fields,
reject with a warning (`ValidationError`) if any is empty, otherwise
`INSERT INTO invoices (supplier_name, invoice_number, date)` and
`log_action(username, "Added invoice: <number>")`.  The session's role is
never consulted on this path. -/
def add_invoice (sess : Session) (supplier number date : String)
    (invoices : List Invoice) (logs : List LogEntry) :
    Except AppError (List Invoice × List LogEntry) :=
  let n := pyStripS supplier
  let num := pyStripS number
  let d := pyStripS date
  if n = "" ∨ num = "" ∨ d = "" then Except.error AppError.validation
  else Except.ok
    (invoices ++ [⟨nextInvoiceId invoices, n, num, d, false, none⟩],
     logs ++ [⟨sess.username, "Added invoice: " ++ num⟩])

/-- Embedding of `InventoryApp.add_user`: strip the three fields, reject
with a warning (`ValidationError`) if any is empty; the INSERT raises
`sqlite3.IntegrityError` when the username violates UNIQUE or the role
violates the `CHECK(role IN ('admin','viewer'))` constraint; otherwise
the row is stored with the hashed password. -/
def add_user (hash : String → String) (u p r : String) (us : List User) :
    Except AppError (List User) :=
  let u' := pyStripS u
  let p' := pyStripS p
  let r' := pyStripS r
  if u' = "" ∨ p' = "" ∨ r' = "" then Except.error AppError.validation
  else if u' ∈ us.map User.username ∨ ¬ (r' = "admin" ∨ r' = "viewer") then
    Except.error AppError.integrity
  else Except.ok (us ++ [⟨u', hash p', r'⟩])

/-- Embedding of `InventoryApp.delete_user` (after the confirmation
dialog): the protected `admin` username is rejected with a warning
(`ProtectedEntityError`); otherwise `DELETE FROM users WHERE username = ?`. -/
def delete_user (u : String) (us : List User) : Except AppError (List User) :=
  if u = "admin" then Except.error AppError.protectedEntity
  else Except.ok (us.filter (fun v => decide (v.username ≠ u)))

/-- Embedding of `attempt_login` in `login_window`: hash the supplied
password and run `SELECT role FROM users WHERE username = ? AND
password = ?`; `fetchone` yields the first matching row, whose role is
returned; `none` models the "Login Failed" message box. -/
def attempt_login (hash : String → String) (u p : String) (us : List User) :
    Option String :=
  (us.find? (fun v => decide (v.username = u ∧ v.password = hash p))).map User.role

/-- Embedding of the module-level legacy-password migration: read
`SELECT password FROM users WHERE username = 'admin'`; if a row exists
and still holds the plain text `"admin"`, replace it by the SHA-256
digest via `UPDATE users SET password = ? WHERE username = 'admin'`. -/
def migrate_admin (hash : String → String) (us : List User) : List User :=
  match us.find? (fun v => decide (v.username = "admin")) with
  | some v =>
      if v.password = "admin"
      then us.map (fun w => if w.username = "admin"
                            then { w with password := hash "admin" } else w)
      else us
  | none => us

/-- A stand-in hash with the two properties the program uses (it is a
function and its output never equals the plaintext `"admin"`), used to
instantiate concrete scenarios. -/
def hash0 (s : String) : String := "#" ++ s

theorem hash0_ne_admin : ∀ x : String, hash0 x ≠ "admin" := by
  intro x hx
  have h2 : ('#' :: x.data : List Char) = ['a', 'd', 'm', 'i', 'n'] := by
    have h1 := congrArg String.data hx
    rw [hash0, String.data_append] at h1
    exact h1
  injection h2 with h3 h4
  exact absurd h3 (by decide)

theorem find?_append_none {α : Type} (p : α → Bool) (l₁ l₂ : List α)
    (h : l₁.find? p = none) : (l₁ ++ l₂).find? p = l₂.find? p := by
  induction l₁ with
  | nil => rfl
  | cons a t ih =>
      by_cases hpa : p a = true
      · rw [List.find?_cons_of_pos t hpa] at h
        exact absurd h (by simp)
      · rw [List.find?_cons_of_neg t hpa] at h
        rw [List.cons_append, List.find?_cons_of_neg _ hpa]
        exact ih h

theorem load_summary_aux (l : Store) : ∀ (c : Nat) (tq : Int) (tv : Rat),
    l.foldl
      (fun acc i => (acc.1 + 1, acc.2.1 + i.quantity, acc.2.2 + (i.quantity : Rat) * i.price))
      (c, tq, tv)
      = (c + l.length, tq + (l.map Item.quantity).sum,
         tv + (l.map (fun i => (i.quantity : Rat) * i.price)).sum) := by
  induction l with
  | nil => intro c tq tv; simp
  | cons i t ih =>
      intro c tq tv
      rw [List.foldl_cons, ih]
      simp only [List.map_cons, List.sum_cons, List.length_cons, Prod.mk.injEq]
      refine ⟨by omega, by ring, by ring⟩

/-- Claim C4: for every store state, the summary computed by the
`load_inventory` loop reports `itemCount` equal to the number of rows of
`listActive`, `totalQuantity` equal to the sum of their quantities, and
`totalValue` equal to the sum of `quantity * price` over exactly the rows
of `listActive`. -/
theorem C4_summary (s : Store) :
    load_inventory_summary s
      = ((listActive s).length,
         ((listActive s).map Item.quantity).sum,
         ((listActive s).map (fun i => (i.quantity : Rat) * i.price)).sum) := by
  rw [load_inventory_summary, load_summary_aux]
  simp

/-- Claim C1 (code behaviour at the failing input): a `viewer` session
invoking the mutating invoice-creation operation with valid fields
succeeds — the row is inserted and the action logged — instead of
failing with `ForbiddenError`; `add_invoice` never consults the
session's role, and no `ForbiddenError` path exists in the program. -/
theorem C1_viewer_add_invoice :
    add_invoice ⟨"eve", "viewer"⟩ "Acme" "INV-1" "2025-01-01" [] []
      = Except.ok ([⟨1, "Acme", "INV-1", "2025-01-01", false, none⟩],
                   [⟨"eve", "Added invoice: INV-1"⟩]) := rfl

/-- Claim C2 (amended): `update(matchName, quantity, price)` rewrites the
quantity and price of every row whose name equals `matchName` — active or
deleted, not only the first active one — preserving all other columns and
all other rows; when no row matches, the store is unchanged and no error
is raised. -/
theorem C2_update (n : String) (q : Int) (p : Rat) (s : Store) :
    (update_item n q p s).length = s.length
    ∧ (∀ (j : Nat) (i : Item), s[j]? = some i →
        ∃ i' : Item, (update_item n q p s)[j]? = some i'
          ∧ i'.id = i.id ∧ i'.name = i.name ∧ i'.deleted = i.deleted
          ∧ i'.deleted_at = i.deleted_at
          ∧ (i.name = n → i'.quantity = q ∧ i'.price = p)
          ∧ (i.name ≠ n → i' = i))
    ∧ ((∀ i ∈ s, i.name ≠ n) → update_item n q p s = s) := by
  refine ⟨?_, ?_, ?_⟩
  · rw [update_item]
    exact List.length_map _ _
  · intro j i hji
    rw [update_item, List.getElem?_map, hji]
    by_cases hn : i.name = n
    · exact ⟨{ i with quantity := q, price := p }, by simp [Option.map_some, hn],
        rfl, rfl, rfl, rfl, fun _ => ⟨rfl, rfl⟩, fun hc => absurd hn hc⟩
    · exact ⟨i, by simp [Option.map_some, hn], rfl, rfl, rfl, rfl,
        fun hc => absurd hc hn, fun _ => rfl⟩
  · intro hall
    rw [update_item]
    have h1 : s.map (fun i => if i.name = n then { i with quantity := q, price := p } else i)
        = s.map id :=
      List.map_congr_left (fun i hi => by simp [hall i hi])
    rw [h1, List.map_id]

/-- Witness for claim C2's amended theorem at a concrete store with no
matching row: the update is a silent no-op. -/
theorem C2_update_witness :
    update_item "A" 5 5 [⟨1, "B", 1, 1, false, none⟩] = [⟨1, "B", 1, 1, false, none⟩] :=
  (C2_update "A" 5 5 [⟨1, "B", 1, 1, false, none⟩]).2.2 (by decide)

/-- Counterexample to claim C2 as stated: with two active rows both named
`A`, `update("A", 5, 5)` rewrites both rows, so a row other than the
first active match does not stay unchanged. -/
theorem C2_update_cex :
    update_item "A" 5 5 [⟨1, "A", 1, 1, false, none⟩, ⟨2, "A", 2, 2, false, none⟩]
      = [⟨1, "A", 5, 5, false, none⟩, ⟨2, "A", 5, 5, false, none⟩]
    ∧ (update_item "A" 5 5 [⟨1, "A", 1, 1, false, none⟩, ⟨2, "A", 2, 2, false, none⟩])[1]?
        ≠ ([⟨1, "A", 1, 1, false, none⟩, ⟨2, "A", 2, 2, false, none⟩] : Store)[1]? := by
  constructor
  · rfl
  · decide

/-- Claim C3 (amended): `purge(matchName)` deletes every row whose name
equals `matchName`, active rows included; afterwards the name is absent
from both `listActive` and `listDeleted`, rows with other names are
untouched, and a name with no matching row is a silent no-op rather than
a `NotFoundError`. -/
theorem C3_purge (n : String) (s : Store) :
    listActive (permanently_delete_item n s)
        = (listActive s).filter (fun i => decide (i.name ≠ n))
    ∧ listDeleted (permanently_delete_item n s)
        = (listDeleted s).filter (fun i => decide (i.name ≠ n))
    ∧ (∀ i ∈ permanently_delete_item n s, i.name ≠ n)
    ∧ ((∀ i ∈ s, i.name ≠ n) → permanently_delete_item n s = s) := by
  refine ⟨?_, ?_, ?_, ?_⟩
  · rw [listActive, permanently_delete_item, listActive, List.filter_filter,
      List.filter_filter]
    exact List.filter_congr (fun i _ => by rw [Bool.and_comm])
  · rw [listDeleted, permanently_delete_item, listDeleted, List.filter_filter,
      List.filter_filter]
    exact List.filter_congr (fun i _ => by rw [Bool.and_comm])
  · intro i hi
    rw [permanently_delete_item] at hi
    have := List.of_mem_filter hi
    simpa using this
  · intro hall
    rw [permanently_delete_item]
    exact List.filter_eq_self.mpr (fun i hi => by simpa using hall i hi)

/-- Witness for claim C3's amended theorem: purging a name with no
matching row at all leaves the concrete store unchanged. -/
theorem C3_purge_witness :
    permanently_delete_item "A" [⟨1, "B", 1, 1, false, none⟩]
      = [⟨1, "B", 1, 1, false, none⟩] :=
  (C3_purge "A" [⟨1, "B", 1, 1, false, none⟩]).2.2.2 (by decide)

/-- Counterexample to claim C3 as stated: `"A"` has no row in
`listDeleted`, so the claim demands a `NotFoundError` with the store
unchanged; the code instead deletes the active row `"A"`, changing the
store. -/
theorem C3_purge_cex :
    permanently_delete_item "A" [⟨1, "A", 1, 1, false, none⟩] = []
    ∧ listDeleted [⟨1, "A", 1, 1, false, none⟩] = []
    ∧ ([⟨1, "A", 1, 1, false, none⟩] : Store) ≠ [] := by
  refine ⟨rfl, rfl, by decide⟩

theorem filter_ne_length (u : String) : ∀ us : List User,
    (us.map User.username).Nodup → u ∈ us.map User.username →
    (us.filter (fun v => decide (v.username ≠ u))).length + 1 = us.length := by
  intro us
  induction us with
  | nil => intro _ h; simp at h
  | cons v t ih =>
      intro hnd hmem
      rw [List.map_cons, List.nodup_cons] at hnd
      by_cases hv : v.username = u
      · have hnt : ∀ w ∈ t, w.username ≠ u := by
          intro w hw hwu
          apply hnd.1
          rw [hv, ← hwu]
          exact List.mem_map_of_mem User.username hw
        rw [List.filter_cons_of_neg (by simp [hv])]
        rw [List.filter_eq_self.mpr (fun w hw => by simpa using hnt w hw)]
        simp
      · rw [List.filter_cons_of_pos (by simp [hv])]
        rw [List.map_cons, List.mem_cons] at hmem
        rcases hmem with h1 | h1
        · exact absurd h1.symm hv
        · have := ih hnd.2 h1
          simp only [List.length_cons]
          omega

/-- Claim C7: `deleteUser("admin")` always fails with
`ProtectedEntityError` and leaves the user store unchanged, and
`deleteUser(u)` for an existing username `u` other than `admin` removes
exactly that row (usernames are UNIQUE in the table). -/
theorem C7_delete_user (us : List User) :
    delete_user "admin" us = Except.error AppError.protectedEntity
    ∧ ∀ u : String, u ≠ "admin" → (us.map User.username).Nodup →
        u ∈ us.map User.username →
        ∃ us' : List User, delete_user u us = Except.ok us'
          ∧ us'.length + 1 = us.length
          ∧ ∀ v : User, v ∈ us' ↔ (v ∈ us ∧ v.username ≠ u) := by
  constructor
  · rw [delete_user, if_pos rfl]
  · intro u hu hnd hmem
    refine ⟨us.filter (fun v => decide (v.username ≠ u)), ?_, ?_, ?_⟩
    · rw [delete_user, if_neg hu]
    · exact filter_ne_length u us hnd hmem
    · intro v
      constructor
      · intro hv
        exact ⟨List.mem_of_mem_filter hv, by simpa using List.of_mem_filter hv⟩
      · intro hv
        exact List.mem_filter.mpr ⟨hv.1, by simpa using hv.2⟩

/-- Witness for claim C7's theorem at a concrete two-user store: deleting
`admin` is rejected, deleting `bob` removes exactly that row. -/
theorem C7_delete_user_witness :
    delete_user "admin" [⟨"admin", "h", "admin"⟩, ⟨"bob", "h", "viewer"⟩]
        = Except.error AppError.protectedEntity
    ∧ ∃ us' : List User,
        delete_user "bob" [⟨"admin", "h", "admin"⟩, ⟨"bob", "h", "viewer"⟩] = Except.ok us'
        ∧ us'.length + 1
            = ([⟨"admin", "h", "admin"⟩, ⟨"bob", "h", "viewer"⟩] : List User).length
        ∧ ∀ v : User, v ∈ us' ↔
            (v ∈ ([⟨"admin", "h", "admin"⟩, ⟨"bob", "h", "viewer"⟩] : List User)
              ∧ v.username ≠ "bob") :=
  ⟨(C7_delete_user _).1,
   (C7_delete_user _).2 "bob" (by decide) (by decide) (by decide)⟩

/-- Claim C8 (amended): provided no row named `n` is already deleted,
`softDelete(n)` followed by `restore(n)` returns the store to its
pre-delete state except that `deleted_at` is cleared on the rows named
`n` (both operations update every row whose name matches, so a row named
`n` that was already in the recycle bin would come back active). -/
theorem C8_softdelete_restore (n ts : String) (s : Store)
    (h : ∀ i ∈ s, i.name = n → i.deleted = false) :
    restore_deleted_item n (delete_item n ts s)
      = s.map (fun i => if i.name = n then { i with deleted_at := none } else i) := by
  rw [delete_item, restore_deleted_item, List.map_map]
  refine List.map_congr_left (fun i hi => ?_)
  have hd := h i hi
  cases i with
  | mk id name qty price del dat =>
      simp only [Function.comp]
      by_cases hn : name = n
      · simp only at hd
        simp [hn, hd hn]
      · simp [hn]

/-- Witness for claim C8's amended theorem at a concrete store whose only
row named `X` is active. -/
theorem C8_softdelete_restore_witness :
    restore_deleted_item "X" (delete_item "X" "t1"
        [⟨1, "X", 1, 1, false, none⟩, ⟨2, "Y", 2, 2, true, some "t0"⟩])
      = ([⟨1, "X", 1, 1, false, none⟩, ⟨2, "Y", 2, 2, true, some "t0"⟩] : Store).map
          (fun i => if i.name = "X" then { i with deleted_at := none } else i) :=
  C8_softdelete_restore "X" "t1" _ (by decide)

/-- Counterexample to claim C8 as stated: on a store whose row named `X`
is already soft-deleted, `softDelete("X")` then `restore("X")` leaves the
row active, so `listActive` membership does not return to its pre-delete
state. -/
theorem C8_softdelete_restore_cex :
    listActive (restore_deleted_item "X"
        (delete_item "X" "t1" [⟨1, "X", 1, 1, true, some "t0"⟩]))
      = [⟨1, "X", 1, 1, false, none⟩]
    ∧ listActive [⟨1, "X", 1, 1, true, some "t0"⟩] = ([] : Store) :=
  ⟨rfl, rfl⟩

theorem find_admin_map (f : User → User) (hf : ∀ w, (f w).username = w.username) :
    ∀ us : List User,
    (us.map f).find? (fun v => decide (v.username = "admin"))
      = (us.find? (fun v => decide (v.username = "admin"))).map f := by
  intro us
  induction us with
  | nil => rfl
  | cons a t ih =>
      rw [List.map_cons]
      by_cases ha : a.username = "admin"
      · rw [List.find?_cons_of_pos _ (by simp [hf, ha]),
          List.find?_cons_of_pos _ (by simp [ha])]
        rfl
      · rw [List.find?_cons_of_neg _ (by simp [hf, ha]),
          List.find?_cons_of_neg _ (by simp [ha])]
        exact ih

/-- Claim C9: at initialization, when the stored credential of the
`admin` row is still the legacy plaintext (`"admin"`, the seeded default
of the legacy scheme), it is replaced in place by its one-way hash; when
the stored credential is already a digest, nothing changes; and the
migration happens exactly once (running it again is a no-op). -/
theorem C9_migration (hash : String → String) (hNe : ∀ x, hash x ≠ "admin")
    (us : List User) :
    (∀ v : User, us.find? (fun w => decide (w.username = "admin")) = some v →
        v.password = "admin" →
        migrate_admin hash us
          = us.map (fun w => if w.username = "admin"
                             then { w with password := hash "admin" } else w))
    ∧ (∀ (v : User) (x : String),
        us.find? (fun w => decide (w.username = "admin")) = some v →
        v.password = hash x → migrate_admin hash us = us)
    ∧ migrate_admin hash (migrate_admin hash us) = migrate_admin hash us := by
  refine ⟨?_, ?_, ?_⟩
  · intro v hv hpw
    rw [migrate_admin, hv]
    dsimp only
    rw [if_pos hpw]
  · intro v x hv hpw
    rw [migrate_admin, hv]
    dsimp only
    rw [if_neg (by rw [hpw]; exact hNe x)]
  · rcases hf : us.find? (fun w => decide (w.username = "admin")) with _ | v
    · have hmig : migrate_admin hash us = us := by rw [migrate_admin, hf]
      rw [hmig, hmig]
    · by_cases hpw : v.password = "admin"
      · have hvadmin : v.username = "admin" := by simpa using List.find?_some hf
        have hmig : migrate_admin hash us
            = us.map (fun w => if w.username = "admin"
                               then { w with password := hash "admin" } else w) := by
          rw [migrate_admin, hf]
          dsimp only
          rw [if_pos hpw]
        rw [hmig]
        have hff : ∀ w : User,
            ((fun w => if w.username = "admin"
                       then { w with password := hash "admin" } else w) w).username
              = w.username := by
          intro w
          by_cases hw : w.username = "admin" <;> simp [hw]
        rw [migrate_admin, find_admin_map _ hff us, hf, Option.map_some']
        dsimp only
        simp [hvadmin, hNe "admin"]
      · have hmig : migrate_admin hash us = us := by
          rw [migrate_admin, hf]
          dsimp only
          rw [if_neg hpw]
        rw [hmig, hmig]

/-- Witness for claim C9's theorem: the seeded legacy store with the
plaintext `admin` credential is rehashed, and a second run changes
nothing. -/
theorem C9_migration_witness :
    migrate_admin hash0 [⟨"admin", "admin", "admin"⟩]
        = ([⟨"admin", "admin", "admin"⟩] : List User).map
            (fun w => if w.username = "admin"
                      then { w with password := hash0 "admin" } else w)
    ∧ migrate_admin hash0 (migrate_admin hash0 [⟨"admin", "admin", "admin"⟩])
        = migrate_admin hash0 [⟨"admin", "admin", "admin"⟩] :=
  ⟨(C9_migration hash0 hash0_ne_admin _).1 ⟨"admin", "admin", "admin"⟩ rfl rfl,
   (C9_migration hash0 hash0_ne_admin _).2.2⟩

/-- Claim C10 (amended): for a username and password that are non-empty
and unchanged by whitespace trimming (`createUser` strips its inputs but
`attempt_login` does not), a role in `{admin, viewer}`, and a username
not already present, `createUser(u, p, r)` succeeds and a subsequent
login with `(u, p)` succeeds and returns role `r`, because both
operations apply the same deterministic hash to the password. -/
theorem C10_create_login (hash : String → String) (u p r : String) (us : List User)
    (hu : pyStripS u = u) (hu0 : u ≠ "") (hp : pyStripS p = p) (hp0 : p ≠ "")
    (hr : r = "admin" ∨ r = "viewer") (hnew : u ∉ us.map User.username) :
    ∃ us' : List User, add_user hash u p r us = Except.ok us'
      ∧ attempt_login hash u p us' = some r := by
  have hrs : pyStripS r = r := by rcases hr with h | h <;> subst h <;> decide
  have hr0 : r ≠ "" := by rcases hr with h | h <;> subst h <;> decide
  have hc1 : ¬ (u = "" ∨ p = "" ∨ r = "") := by
    push_neg
    exact ⟨hu0, hp0, hr0⟩
  have hc2 : ¬ (u ∈ us.map User.username ∨ ¬ (r = "admin" ∨ r = "viewer")) := by
    push_neg
    exact ⟨hnew, hr⟩
  refine ⟨us ++ [⟨u, hash p, r⟩], ?_, ?_⟩
  · simp only [add_user, hu, hp, hrs]
    rw [if_neg hc1, if_neg hc2]
  · rw [attempt_login]
    have hfind1 : us.find? (fun v => decide (v.username = u ∧ v.password = hash p))
        = none :=
      List.find?_eq_none.mpr (fun v hv => by
        simp only [decide_eq_true_eq]
        rintro ⟨hvu, -⟩
        exact hnew (hvu ▸ List.mem_map_of_mem User.username hv))
    rw [find?_append_none _ _ _ hfind1]
    rw [List.find?_cons_of_pos _ (by simp)]
    rfl

/-- Witness for claim C10's amended theorem at a concrete store: creating
`bob` and logging in as `bob` returns the `viewer` role. -/
theorem C10_create_login_witness :
    ∃ us' : List User,
      add_user hash0 "bob" "pw" "viewer" [⟨"admin", hash0 "admin", "admin"⟩]
          = Except.ok us'
      ∧ attempt_login hash0 "bob" "pw" us' = some "viewer" :=
  C10_create_login hash0 "bob" "pw" "viewer" [⟨"admin", hash0 "admin", "admin"⟩]
    (by decide) (by decide) (by decide) (by decide) (Or.inr rfl) (by decide)

/-- Counterexample to claim C10 as stated: the username `" bob "` is
non-empty and not present, yet after `createUser(" bob ", "x", "viewer")`
succeeds (storing the stripped name `"bob"`), authenticating with
`(" bob ", "x")` fails, because `attempt_login` does not strip its input. -/
theorem C10_create_login_cex :
    add_user hash0 " bob " "x" "viewer" [⟨"admin", hash0 "admin", "admin"⟩]
      = Except.ok [⟨"admin", hash0 "admin", "admin"⟩, ⟨"bob", hash0 "x", "viewer"⟩]
    ∧ attempt_login hash0 " bob " "x"
        [⟨"admin", hash0 "admin", "admin"⟩, ⟨"bob", hash0 "x", "viewer"⟩] = none :=
  ⟨rfl, rfl⟩

/-- Claim C6 (amended): import accepts exactly the rows satisfying
`importRowOk` — both numeric fields convert and the stripped name is
non-empty — inserting each accepted row as a new active record and
counting it; a row whose Quantity or Price field fails numeric parsing is
skipped silently, a row with an empty (or absent) name is skipped, but a
row whose Quantity or Price *column* is missing from the header is NOT
skipped: the `row.get(col, 0)` default makes the conversion succeed and
the row is imported with quantity 0 (respectively price 0.0). -/
theorem C6_import_skip (c : Csv) (s : Store)
    (hlen : ∀ r ∈ c.rows, r.length = c.header.length) :
    (import_inventory_csv c s).1 = (c.rows.filter (importRowOk c.header)).length
    ∧ ∃ new : Store, (import_inventory_csv c s).2 = s ++ new
        ∧ (∀ i ∈ new, i.deleted = false ∧ i.deleted_at = none)
        ∧ new.map rowView
            = (c.rows.filter (importRowOk c.header)).map (importRowView c.header) := by
  obtain ⟨h1, new, h2, h3, h4⟩ := import_rows_spec c.header c.rows 0 s
  refine ⟨?_, new, ?_, h3, h4⟩
  · show (c.rows.foldl (import_row_step c.header) (0, s)).1 = _
    rw [h1]
    simp
  · show (c.rows.foldl (import_row_step c.header) (0, s)).2 = s ++ new
    exact h2

/-- Witness for claim C6's amended theorem on a concrete stream with one
valid row and one row with a non-numeric quantity. -/
theorem C6_import_skip_witness :
    (import_inventory_csv ⟨["Item Name", "Quantity", "Price"],
        [["A", "2", "3.5"], ["B", "x", "1"]]⟩ []).1
      = ((⟨["Item Name", "Quantity", "Price"],
          [["A", "2", "3.5"], ["B", "x", "1"]]⟩ : Csv).rows.filter
            (importRowOk ["Item Name", "Quantity", "Price"])).length
    ∧ ∃ new : Store,
        (import_inventory_csv ⟨["Item Name", "Quantity", "Price"],
            [["A", "2", "3.5"], ["B", "x", "1"]]⟩ []).2 = [] ++ new
        ∧ (∀ i ∈ new, i.deleted = false ∧ i.deleted_at = none)
        ∧ new.map rowView
            = ((⟨["Item Name", "Quantity", "Price"],
                [["A", "2", "3.5"], ["B", "x", "1"]]⟩ : Csv).rows.filter
                  (importRowOk ["Item Name", "Quantity", "Price"])).map
                (importRowView ["Item Name", "Quantity", "Price"]) :=
  C6_import_skip ⟨["Item Name", "Quantity", "Price"],
    [["A", "2", "3.5"], ["B", "x", "1"]]⟩ [] (by decide)

/-- Counterexample to claim C6 as stated: the Quantity and Price columns
are missing from the header, so the claim requires the row to be skipped
and not counted; the code instead converts the defaults `0`/`0.0`,
imports the row, and counts it. -/
theorem C6_import_skip_cex :
    import_inventory_csv ⟨["Item Name"], [["A"]]⟩ []
      = (1, [⟨1, "A", 0, 0, false, none⟩]) := rfl

theorem export_row_fields (i : Item)
    (hn : pyStripS i.name = i.name) (hd : i.price.den ∣ 10 ^ i.price.den) :
    importRowName ["Item Name", "Quantity", "Price"]
        [i.name, renderIntS i.quantity, renderPriceS i.price] = i.name
    ∧ importRowQty ["Item Name", "Quantity", "Price"]
        [i.name, renderIntS i.quantity, renderPriceS i.price] = some i.quantity
    ∧ importRowPrice ["Item Name", "Quantity", "Price"]
        [i.name, renderIntS i.quantity, renderPriceS i.price] = some i.price := by
  refine ⟨?_, ?_, ?_⟩
  · rw [importRowName]
    have hg : getField ["Item Name", "Quantity", "Price"]
        [i.name, renderIntS i.quantity, renderPriceS i.price] "Item Name"
          = some i.name := rfl
    rw [hg]
    exact hn
  · have hg : getField ["Item Name", "Quantity", "Price"]
        [i.name, renderIntS i.quantity, renderPriceS i.price] "Quantity"
          = some (renderIntS i.quantity) := rfl
    rw [importRowQty, hg]
    exact pythonInt_renderInt i.quantity
  · have hg : getField ["Item Name", "Quantity", "Price"]
        [i.name, renderIntS i.quantity, renderPriceS i.price] "Price"
          = some (renderPriceS i.price) := rfl
    rw [importRowPrice, hg]
    exact pythonFloat_renderPrice i.price hd

/-- Claim C5 (amended): for a store whose active rows all have names that
are non-empty and unchanged by whitespace trimming (and prices with a
finite decimal representation, which every binary float has), exporting
to CSV and importing the output into an empty store reproduces exactly
the active rows (name, quantity, price), surrogate ids ignored. -/
theorem C5_round_trip (s : Store)
    (hname : ∀ i ∈ listActive s, pyStripS i.name = i.name ∧ i.name ≠ "")
    (hprice : ∀ i ∈ listActive s, i.price.den ∣ 10 ^ i.price.den) :
    (listActive (import_inventory_csv (export_inventory_csv s) []).2).map rowView
      = (listActive s).map rowView := by
  obtain ⟨hcnt, new, hnew, hact, hview⟩ :=
    import_rows_spec ["Item Name", "Quantity", "Price"]
      ((listActive s).map (fun i => [i.name, renderIntS i.quantity, renderPriceS i.price]))
      0 []
  have hok : ∀ r ∈ (listActive s).map
      (fun i => [i.name, renderIntS i.quantity, renderPriceS i.price]),
      importRowOk ["Item Name", "Quantity", "Price"] r = true := by
    intro r hr
    obtain ⟨i, hi, hri⟩ := List.mem_map.mp hr
    subst hri
    obtain ⟨h1, h2, h3⟩ := export_row_fields i (hname i hi).1 (hprice i hi)
    rw [importRowOk, h2, h3, h1]
    simp [(hname i hi).2]
  have hfilter : ((listActive s).map
        (fun i => [i.name, renderIntS i.quantity, renderPriceS i.price])).filter
          (importRowOk ["Item Name", "Quantity", "Price"])
      = (listActive s).map
          (fun i => [i.name, renderIntS i.quantity, renderPriceS i.price]) :=
    List.filter_eq_self.mpr hok
  have hviews : ((listActive s).map
        (fun i => [i.name, renderIntS i.quantity, renderPriceS i.price])).map
          (importRowView ["Item Name", "Quantity", "Price"])
      = (listActive s).map rowView := by
    rw [List.map_map]
    refine List.map_congr_left (fun i hi => ?_)
    show importRowView ["Item Name", "Quantity", "Price"]
        [i.name, renderIntS i.quantity, renderPriceS i.price] = rowView i
    obtain ⟨h1, h2, h3⟩ := export_row_fields i (hname i hi).1 (hprice i hi)
    rw [importRowView, h1, h2, h3]
    rfl
  have hLA : listActive new = new :=
    List.filter_eq_self.mpr (fun i hi => by simp [(hact i hi).1])
  have himp : (import_inventory_csv (export_inventory_csv s) []).2 = [] ++ new := hnew
  rw [himp, List.nil_append, hLA, hview, hfilter, hviews]

/-- Witness for claim C5's amended theorem at a concrete store with a
fractional price, a negative quantity, and a soft-deleted row. -/
theorem C5_round_trip_witness :
    (listActive (import_inventory_csv (export_inventory_csv
        [⟨1, "Widget", 10, mkRat 5 2, false, none⟩,
         ⟨2, "Bolt", -3, 2, true, some "t"⟩]) []).2).map rowView
      = (listActive [⟨1, "Widget", 10, mkRat 5 2, false, none⟩,
          ⟨2, "Bolt", -3, 2, true, some "t"⟩]).map rowView :=
  C5_round_trip _ (by decide) (by decide)

/-- Counterexample to claim C5 as stated: a store whose active row is
named `" A "` (whitespace around the name) exports verbatim, but import
strips the name, so the round trip yields the different row `"A"` and
the set of active rows is not reproduced. -/
theorem C5_round_trip_cex :
    (listActive (import_inventory_csv (export_inventory_csv
        [⟨1, " A ", 1, 1, false, none⟩]) []).2).map rowView = [("A", 1, 1)]
    ∧ (listActive [⟨1, " A ", 1, 1, false, none⟩]).map rowView = [(" A ", 1, 1)]
    ∧ (" A ", (1 : Int), (1 : Rat)) ∉
        (listActive (import_inventory_csv (export_inventory_csv
          [⟨1, " A ", 1, 1, false, none⟩]) []).2).map rowView := by
  refine ⟨by with_unfolding_all decide, by with_unfolding_all decide,
    by with_unfolding_all decide⟩
